import Mathlib

/-!
Shallow embedding of `src/keygen.ts` from the `wireguard-keygen` repository.

The TypeScript source delegates base64 handling to Node's `Buffer` and the
elliptic-curve arithmetic to `x25519.getPublicKey` from `@noble/curves`.
Both collaborators are modelled here faithfully:

* `nodeBase64Decode` models `Buffer.from(str, 'base64')`: Node's decoder is
  total (it never throws on a string input), accepts the base64url characters
  `-` and `_` in addition to the standard alphabet, skips characters outside
  the alphabet, stops at the first `=`, and turns a trailing group of
  2 or 3 sextets into 1 or 2 bytes.
* `base64encode` models `buf.toString('base64')`: standard alphabet with
  `=` padding.
* `x25519getPublicKey` models `@noble/curves`' X25519: RFC 7748 scalar
  clamping (`adjustScalarBytes`), little-endian scalar decoding, the
  Montgomery ladder over GF(2^255-19) against the base point u = 9, and
  little-endian encoding of the resulting u-coordinate.

Thrown JavaScript errors are modelled with `Except String`; the only error
the source ever constructs is `'Private key must be 32 bytes long'`.
Randomness (`randomBytes(32)`) is modelled by passing the drawn bytes as an
explicit argument.
-/

namespace WireguardKeygen

/-! ### Base64 alphabet -/

/-- The standard base64 alphabet, as used by Node's base64 encoder. -/
def b64Alphabet : List Char :=
  "ABCDEFGHIJKLMNOPQRSTUVWXYZabcdefghijklmnopqrstuvwxyz0123456789+/".data

/-- Character for a sextet value (Node encoder's table lookup). -/
def b64char (n : Nat) : Char := b64Alphabet.getD n 'A'

/-- Sextet value of a character of the standard base64 alphabet
(`A`–`Z`, `a`–`z`, `0`–`9`, `+`, `/`); `none` for any other character. -/
def stdSextet (c : Char) : Option Nat :=
  if 65 ≤ c.toNat ∧ c.toNat ≤ 90 then some (c.toNat - 65)
  else if 97 ≤ c.toNat ∧ c.toNat ≤ 122 then some (c.toNat - 71)
  else if 48 ≤ c.toNat ∧ c.toNat ≤ 57 then some (c.toNat + 4)
  else if c.toNat = 43 then some 62
  else if c.toNat = 47 then some 63
  else none

/-- Sextet value of a character as accepted by Node's base64 decoder:
the standard alphabet plus the base64url characters `-` (62) and `_` (63).
Everything else (whitespace included) is `none` and gets skipped. -/
def sextet (c : Char) : Option Nat :=
  if c = '-' then some 62
  else if c = '_' then some 63
  else stdSextet c

/-! ### Node base64 encoding (`buf.toString('base64')`) -/

/-- Standard base64 encoding of a byte list, with `=` padding
(Node's `Buffer#toString('base64')`). -/
def base64encode : List Nat → List Char
  | [] => []
  | [a] =>
      [b64char (a / 4), b64char (a % 4 * 16), '=', '=']
  | [a, b] =>
      [b64char (a / 4), b64char (a % 4 * 16 + b / 16), b64char (b % 16 * 4), '=']
  | a :: b :: c :: rest =>
      b64char (a / 4) :: b64char (a % 4 * 16 + b / 16) ::
      b64char (b % 16 * 4 + c / 64) :: b64char (c % 64) :: base64encode rest

/-- `Buffer.from(bytes).toString('base64')` as a Lean `String`. -/
def bytesToBase64 (l : List Nat) : String := ⟨base64encode l⟩

/-! ### Node base64 decoding (`Buffer.from(str, 'base64')`) -/

/-- First phase of Node's base64 decoder: collect sextet values, skipping
characters outside the (extended) alphabet and stopping at the first `=`. -/
def collectSextets : List Char → List Nat
  | [] => []
  | c :: rest =>
      if c = '=' then []
      else
        match sextet c with
        | some v => v :: collectSextets rest
        | none => collectSextets rest

/-- Second phase of Node's base64 decoder: regroup sextets into bytes; a
trailing group of 3 sextets yields 2 bytes, of 2 sextets yields 1 byte, and a
single leftover sextet yields nothing. -/
def sextetsToBytes : List Nat → List Nat
  | a :: b :: c :: d :: rest =>
      (a * 4 + b / 16) :: (b % 16 * 16 + c / 4) :: (c % 4 * 64 + d) :: sextetsToBytes rest
  | [a, b, c] => [a * 4 + b / 16, b % 16 * 16 + c / 4]
  | [a, b] => [a * 4 + b / 16]
  | _ => []

/-- `Buffer.from(s, 'base64')` as a byte list. Total: Node's base64 decoding
of a string never throws. -/
def nodeBase64Decode (s : String) : List Nat :=
  sextetsToBytes (collectSextets s.data)

/-! ### Strict standard base64 (the spec's notion of "valid base64")

The spec's encoding rule reads: "all keys are encoded using standard base64
alphabet (`A–Z`, `a–z`, `0–9`, `+`, `/`) with `=` padding". The following
decoder follows those words: it succeeds exactly on well-formed standard
base64 (groups of four alphabet characters, with an optional final group
carrying one or two `=` padding characters), and is used only to state
spec-side hypotheses and to compare with the lenient Node decoder. -/

/-- Strict standard base64 decoder, following the spec's words; `none` on any
string that is not valid standard base64. -/
def specStdDecode : List Char → Option (List Nat)
  | [] => some []
  | c1 :: c2 :: c3 :: c4 :: rest =>
      match stdSextet c1, stdSextet c2 with
      | some a, some b =>
        if c3 = '=' then
          if c4 = '=' ∧ rest = [] then some [a * 4 + b / 16] else none
        else
          match stdSextet c3 with
          | some c =>
            if c4 = '=' then
              if rest = [] then some [a * 4 + b / 16, b % 16 * 16 + c / 4] else none
            else
              match stdSextet c4, specStdDecode rest with
              | some d, some tail =>
                  some ((a * 4 + b / 16) :: (b % 16 * 16 + c / 4) :: (c % 4 * 64 + d) :: tail)
              | _, _ => none
          | none => none
      | _, _ => none
  | _ => none

/-! ### X25519 (`@noble/curves`' `x25519.getPublicKey`, per RFC 7748) -/

/-- The field prime 2^255 - 19. -/
def p25519 : Nat := 2 ^ 255 - 19

/-- Field addition. -/
def fadd (a b : Nat) : Nat := (a + b) % p25519

/-- Field subtraction (arguments reduced mod p). -/
def fsub (a b : Nat) : Nat := (a + (p25519 - b % p25519)) % p25519

/-- Field multiplication. -/
def fmul (a b : Nat) : Nat := a * b % p25519

/-- Right-to-left binary modular exponentiation, with fuel for structural
recursion (256 suffices for exponents below 2^256). -/
def powModAux : Nat → Nat → Nat → Nat → Nat
  | 0, _, _, acc => acc
  | fuel + 1, b, e, acc =>
      if e = 0 then acc
      else powModAux fuel (b * b % p25519) (e / 2)
        (if e % 2 = 1 then acc * b % p25519 else acc)

/-- Field inversion via Fermat: x^(p-2) mod p. -/
def finv (x : Nat) : Nat := powModAux 256 (x % p25519) (p25519 - 2) 1

/-- One round of the Montgomery ladder (RFC 7748 formulas, a24 = 121665). -/
def ladderRound (x1 : Nat) (s : Nat × Nat × Nat × Nat) : Nat × Nat × Nat × Nat :=
  let (x2, z2, x3, z3) := s
  let A := fadd x2 z2
  let AA := fmul A A
  let B := fsub x2 z2
  let BB := fmul B B
  let E := fsub AA BB
  let C := fadd x3 z3
  let D := fsub x3 z3
  let DA := fmul D A
  let CB := fmul C B
  let x3n := fmul (fadd DA CB) (fadd DA CB)
  let z3n := fmul x1 (fmul (fsub DA CB) (fsub DA CB))
  let x2n := fmul AA BB
  let z2n := fmul E (fadd AA (fmul 121665 E))
  (x2n, z2n, x3n, z3n)

/-- Ladder loop over the scalar bits, from bit `fuel - 1` down to bit 0; the
conditional swap is applied around each round according to the current bit. -/
def montLoop (k x1 : Nat) : Nat → Nat × Nat × Nat × Nat → Nat × Nat × Nat × Nat
  | 0, s => s
  | t + 1, s =>
      let kt := k / 2 ^ t % 2
      let s1 := if kt = 1 then (s.2.2.1, s.2.2.2, s.1, s.2.1) else s
      let s2 := ladderRound x1 s1
      let s3 := if kt = 1 then (s2.2.2.1, s2.2.2.2, s2.1, s2.2.1) else s2
      montLoop k x1 t s3

/-- X25519 scalar multiplication: u-coordinate of `k * (u, _)`. -/
def montgomeryLadder (k u : Nat) : Nat :=
  let x1 := u % p25519
  let s := montLoop k x1 255 (1, 0, x1, 1)
  fmul s.1 (finv s.2.1)

/-- RFC 7748 scalar clamping (`adjustScalarBytes` in `@noble/curves`):
clear the low 3 bits of byte 0, clear the top bit and set bit 6 of byte 31. -/
def adjustScalarBytes (b : List Nat) : List Nat :=
  (b.set 0 (b.getD 0 0 / 8 * 8)).set 31 (b.getD 31 0 % 64 + 64)

/-- Little-endian byte list to natural number. -/
def leToNat : List Nat → Nat
  | [] => 0
  | b :: rest => b + 256 * leToNat rest

/-- Natural number to little-endian byte list of the given length. -/
def natToLe : Nat → Nat → List Nat
  | 0, _ => []
  | len + 1, n => n % 256 :: natToLe len (n / 256)

/-- `x25519.getPublicKey` from `@noble/curves`: clamp the 32 private-key
bytes, decode little-endian, multiply the base point u = 9, return the
32-byte little-endian u-coordinate. -/
def x25519getPublicKey (privBytes : List Nat) : List Nat :=
  let k := leToNat (adjustScalarBytes privBytes)
  natToLe 32 (montgomeryLadder k 9)

/-! ### The functions of `src/keygen.ts` -/

/-- The message of the only error `src/keygen.ts` ever throws:
`throw new Error('Private key must be 32 bytes long')`. -/
def keyLengthError : String :=
  "Private key must be 32 bytes long"

/-- `WireGuardKeyPair` interface. -/
structure WireGuardKeyPair where
  privateKey : String
  publicKey : String
  deriving DecidableEq, Repr

/-- `generatePrivateKey`: base64-encode the 32 random bytes drawn from
`randomBytes(32)`; the draw is passed explicitly. -/
def generatePrivateKey (randomBytes : List Nat) : String :=
  bytesToBase64 randomBytes

/-- `derivePublicKey`: base64-decode the private key, throw
`'Private key must be 32 bytes long'` unless exactly 32 bytes were decoded,
otherwise return the base64-encoded X25519 public key. -/
def derivePublicKey (privateKeyStr : String) : Except String String :=
  let privateKeyBytes := nodeBase64Decode privateKeyStr
  if privateKeyBytes.length ≠ 32 then
    .error keyLengthError
  else
    .ok (bytesToBase64 (x25519getPublicKey privateKeyBytes))

/-- `validatePublicKey`: `false` unless the string has exactly 44 characters
and base64-decodes to exactly 32 bytes. (The `try`/`catch` in the source is
vacuous: Node's base64 decoding of a string never throws.) -/
def validatePublicKey (publicKey : String) : Bool :=
  if publicKey.length ≠ 44 then false
  else (nodeBase64Decode publicKey).length == 32

/-- `generateWireguardKeyPair`: sample a private key (the random draw is
passed explicitly) and derive its public key. -/
def generateWireguardKeyPair (randomBytes : List Nat) :
    Except String WireGuardKeyPair :=
  let privateKey := generatePrivateKey randomBytes
  (derivePublicKey privateKey).map fun publicKey =>
    { privateKey := privateKey, publicKey := publicKey }

end WireguardKeygen

/-! ## Lemmas about the base64 codec -/

namespace WireguardKeygen

/-- Every sextet value below 64 encodes to a character the strict decoder
maps back to it. -/
theorem stdSextet_b64char : ∀ n : Fin 64, stdSextet (b64char n.val) = some n.val := by decide

theorem stdSextet_b64char_of_lt {n : Nat} (h : n < 64) : stdSextet (b64char n) = some n :=
  stdSextet_b64char ⟨n, h⟩

/-- Alphabet characters are never the padding character. -/
theorem b64char_ne_eq : ∀ n : Fin 64, b64char n.val ≠ '=' := by decide

theorem b64char_ne_eq_of_lt {n : Nat} (h : n < 64) : b64char n ≠ '=' :=
  b64char_ne_eq ⟨n, h⟩

/-- Node's lenient decoder accepts every standard-alphabet character, with
the same sextet value as the strict decoder. -/
theorem sextet_of_std {c : Char} {v : Nat} (h : stdSextet c = some v) : sextet c = some v := by
  unfold sextet
  split
  · subst c; simp [stdSextet] at h
  · split
    · subst c; simp [stdSextet] at h
    · exact h

/-- A standard-alphabet character is not the padding character. -/
theorem stdSextet_ne_eq {c : Char} {v : Nat} (h : stdSextet c = some v) : c ≠ '=' := by
  rintro rfl; simp [stdSextet] at h

/-- Sextet values are below 64. -/
theorem stdSextet_lt {c : Char} {v : Nat} (h : stdSextet c = some v) : v < 64 := by
  unfold stdSextet at h
  repeat' split at h
  all_goals first
    | (injection h with h; omega)
    | exact absurd h (by simp)

end WireguardKeygen

/-! ## Correctness of the base64 codec and derived facts -/

namespace WireguardKeygen

theorem specStdDecode_base64encode :
    ∀ l : List Nat, (∀ b ∈ l, b < 256) → specStdDecode (base64encode l) = some l := by
  intro l
  induction l using base64encode.induct with
  | case1 => intro _; rfl
  | case2 a =>
    intro h
    have ha : a < 256 := h a (by simp)
    have e1 := stdSextet_b64char_of_lt (show a / 4 < 64 by omega)
    have e2 := stdSextet_b64char_of_lt (show a % 4 * 16 < 64 by omega)
    simp only [base64encode, specStdDecode, e1, e2, and_self, if_true, reduceIte,
      Option.some.injEq, List.cons.injEq, and_true]
    omega
  | case3 a b =>
    intro h
    have ha : a < 256 := h a (by simp)
    have hb : b < 256 := h b (by simp)
    have e1 := stdSextet_b64char_of_lt (show a / 4 < 64 by omega)
    have e2 := stdSextet_b64char_of_lt (show a % 4 * 16 + b / 16 < 64 by omega)
    have e3 := stdSextet_b64char_of_lt (show b % 16 * 4 < 64 by omega)
    have n3 := b64char_ne_eq_of_lt (show b % 16 * 4 < 64 by omega)
    simp only [base64encode, specStdDecode, e1, e2, e3, n3, if_false, reduceIte,
      Option.some.injEq, List.cons.injEq, and_true]
    omega
  | case4 a b c rest ih =>
    intro h
    have ha : a < 256 := h a (by simp)
    have hb : b < 256 := h b (by simp)
    have hc : c < 256 := h c (by simp)
    have hrest : ∀ x ∈ rest, x < 256 := fun x hx => h x (by simp [hx])
    have e1 := stdSextet_b64char_of_lt (show a / 4 < 64 by omega)
    have e2 := stdSextet_b64char_of_lt (show a % 4 * 16 + b / 16 < 64 by omega)
    have e3 := stdSextet_b64char_of_lt (show b % 16 * 4 + c / 64 < 64 by omega)
    have e4 := stdSextet_b64char_of_lt (show c % 64 < 64 by omega)
    have n3 := b64char_ne_eq_of_lt (show b % 16 * 4 + c / 64 < 64 by omega)
    have n4 := b64char_ne_eq_of_lt (show c % 64 < 64 by omega)
    simp only [base64encode, specStdDecode, e1, e2, e3, e4, n3, n4, if_false, reduceIte,
      ih hrest, Option.some.injEq, List.cons.injEq, and_true]
    omega

theorem specStd_spec :
    ∀ cs l, specStdDecode cs = some l →
      sextetsToBytes (collectSextets cs) = l ∧
      cs.length % 4 = 0 ∧ 4 * l.length ≤ 3 * cs.length ∧ 3 * cs.length ≤ 4 * l.length + 8 := by
  intro cs
  induction cs using specStdDecode.induct with
  | case1 =>
    intro l h
    simp only [specStdDecode, Option.some.injEq] at h
    subst h
    exact ⟨rfl, by simp⟩
  | case2 c1 c2 c4 rest a b hb ha hcond =>
    obtain ⟨rfl, rfl⟩ := hcond
    intro l h
    simp only [specStdDecode, ha, hb, reduceIte, and_self, Option.some.injEq] at h
    subst h
    refine ⟨?_, by simp⟩
    simp [collectSextets, sextetsToBytes, stdSextet_ne_eq ha, stdSextet_ne_eq hb,
      sextet_of_std ha, sextet_of_std hb]
  | case3 c1 c2 c4 rest a b hb ha hcond =>
    intro l h
    simp only [specStdDecode, ha, hb, reduceIte, hcond, if_false] at h
    exact Option.noConfusion h
  | case4 c1 c2 c3 a b hb ha hc3 v hv =>
    intro l h
    simp only [specStdDecode, ha, hb, hv, hc3, reduceIte, if_false, Option.some.injEq] at h
    subst h
    refine ⟨?_, by simp⟩
    simp [collectSextets, sextetsToBytes, stdSextet_ne_eq ha, stdSextet_ne_eq hb,
      stdSextet_ne_eq hv, sextet_of_std ha, sextet_of_std hb, sextet_of_std hv]
  | case5 c1 c2 c3 rest a b hb ha hc3 v hv hrest =>
    intro l h
    simp only [specStdDecode, ha, hb, hv, hc3, hrest, reduceIte, if_false] at h
    exact Option.noConfusion h
  | case6 c1 c2 c3 c4 rest a b hb ha hc3 v hv hc4 d tail htail hd ih =>
    intro l h
    simp only [specStdDecode, ha, hb, hv, hd, htail, hc3, hc4, reduceIte, if_false,
      Option.some.injEq] at h
    subst h
    obtain ⟨ihc, ihm, ihlo, ihhi⟩ := ih tail htail
    refine ⟨?_, by simp; omega, by simp; omega, by simp; omega⟩
    simp only [collectSextets, sextetsToBytes, stdSextet_ne_eq ha, stdSextet_ne_eq hb,
      stdSextet_ne_eq hv, stdSextet_ne_eq hd, sextet_of_std ha, sextet_of_std hb,
      sextet_of_std hv, sextet_of_std hd, if_false, reduceIte, ihc]
  | case7 c1 c2 c3 c4 rest a b hb ha hc3 v hv hc4 hfail ih =>
    intro l h
    rcases e4 : stdSextet c4 with _ | d
    · simp only [specStdDecode, ha, hb, hv, e4, hc3, hc4, reduceIte, if_false] at h
      exact Option.noConfusion h
    · rcases er : specStdDecode rest with _ | tail
      · simp only [specStdDecode, ha, hb, hv, e4, er, hc3, hc4, reduceIte, if_false] at h
        exact Option.noConfusion h
      · exact absurd (hfail d tail e4 er) not_false
  | case8 c1 c2 c3 c4 rest a b hb ha hc3 hnone =>
    intro l h
    simp only [specStdDecode, ha, hb, hnone, hc3, reduceIte, if_false] at h
    exact Option.noConfusion h
  | case9 c1 c2 c3 c4 rest hfail =>
    intro l h
    rcases e1 : stdSextet c1 with _ | a
    · simp only [specStdDecode, e1] at h
      exact Option.noConfusion h
    · rcases e2 : stdSextet c2 with _ | b
      · simp only [specStdDecode, e1, e2] at h
        exact Option.noConfusion h
      · exact absurd (hfail a b e1 e2) not_false
  | case10 t hne hn4 =>
    intro l h
    rcases t with _ | ⟨x, _ | ⟨y, _ | ⟨z, _ | ⟨w, r⟩⟩⟩⟩
    · exact absurd rfl hne
    · exact Option.noConfusion h
    · exact Option.noConfusion h
    · exact Option.noConfusion h
    · exact absurd rfl (hn4 x y z w r)

theorem base64encode_length (l : List Nat) :
    (base64encode l).length = 4 * ((l.length + 2) / 3) := by
  induction l using base64encode.induct with
  | case1 => rfl
  | case2 a => simp [base64encode]
  | case3 a b => simp [base64encode]
  | case4 a b c rest ih =>
    simp only [base64encode, List.length_cons, ih]
    omega

theorem base64encode_pad (l : List Nat) (hb : ∀ b ∈ l, b < 256) (hlen : l.length % 3 = 2) :
    ∃ pre, base64encode l = pre ++ ['='] ∧ ∀ c ∈ pre, ∃ v, stdSextet c = some v := by
  induction l using base64encode.induct with
  | case1 => simp at hlen
  | case2 a => simp at hlen
  | case3 a b =>
    have ha : a < 256 := hb a (by simp)
    have hbb : b < 256 := hb b (by simp)
    refine ⟨[b64char (a / 4), b64char (a % 4 * 16 + b / 16), b64char (b % 16 * 4)], rfl, ?_⟩
    intro c hc
    simp only [List.mem_cons, List.not_mem_nil, or_false] at hc
    rcases hc with rfl | rfl | rfl
    · exact ⟨_, stdSextet_b64char_of_lt (by omega)⟩
    · exact ⟨_, stdSextet_b64char_of_lt (by omega)⟩
    · exact ⟨_, stdSextet_b64char_of_lt (by omega)⟩
  | case4 a b c rest ih =>
    have ha : a < 256 := hb a (by simp)
    have hbb : b < 256 := hb b (by simp)
    have hc : c < 256 := hb c (by simp)
    have hrest : ∀ x ∈ rest, x < 256 := fun x hx => hb x (by simp [hx])
    have hlen' : rest.length % 3 = 2 := by
      simp only [List.length_cons] at hlen; omega
    obtain ⟨pre, hpre, hall⟩ := ih hrest hlen'
    refine ⟨b64char (a / 4) :: b64char (a % 4 * 16 + b / 16) ::
      b64char (b % 16 * 4 + c / 64) :: b64char (c % 64) :: pre, ?_, ?_⟩
    · simp [base64encode, hpre]
    · intro ch hch
      simp only [List.mem_cons] at hch
      rcases hch with rfl | rfl | rfl | rfl | hch
      · exact ⟨_, stdSextet_b64char_of_lt (by omega)⟩
      · exact ⟨_, stdSextet_b64char_of_lt (by omega)⟩
      · exact ⟨_, stdSextet_b64char_of_lt (by omega)⟩
      · exact ⟨_, stdSextet_b64char_of_lt (by omega)⟩
      · exact hall ch hch

theorem natToLe_length : ∀ (len n : Nat), (natToLe len n).length = len := by
  intro len
  induction len with
  | zero => intro n; rfl
  | succ k ih => intro n; simp [natToLe, ih]

theorem natToLe_lt : ∀ (len n : Nat), ∀ b ∈ natToLe len n, b < 256 := by
  intro len
  induction len with
  | zero => intro n b hb; simp [natToLe] at hb
  | succ k ih =>
    intro n b hb
    simp only [natToLe, List.mem_cons] at hb
    rcases hb with rfl | hb
    · omega
    · exact ih _ b hb

theorem x25519getPublicKey_length (l : List Nat) : (x25519getPublicKey l).length = 32 :=
  natToLe_length 32 _

theorem x25519getPublicKey_lt (l : List Nat) : ∀ b ∈ x25519getPublicKey l, b < 256 :=
  natToLe_lt 32 _

theorem specStd_roundtrip (l : List Nat) (hb : ∀ b ∈ l, b < 256) :
    specStdDecode (bytesToBase64 l).data = some l :=
  specStdDecode_base64encode l hb

theorem nodeBase64Decode_bytesToBase64 (l : List Nat) (hb : ∀ b ∈ l, b < 256) :
    nodeBase64Decode (bytesToBase64 l) = l :=
  (specStd_spec _ l (specStd_roundtrip l hb)).1

theorem bytesToBase64_length (l : List Nat) :
    (bytesToBase64 l).length = 4 * ((l.length + 2) / 3) :=
  base64encode_length l

theorem validatePublicKey_bytesToBase64 (l : List Nat) (h32 : l.length = 32)
    (hb : ∀ b ∈ l, b < 256) : validatePublicKey (bytesToBase64 l) = true := by
  unfold validatePublicKey
  rw [if_neg (by rw [bytesToBase64_length, h32]; decide)]
  rw [nodeBase64Decode_bytesToBase64 l hb, h32]
  rfl

end WireguardKeygen

/-! ## The claims -/

namespace WireguardKeygen

/-! ## Concrete inputs used by the claim theorems -/

/-- The spec's fixed test-vector private key. -/
def testPrivateKey : String :=
  "nPse/4zbQGxOqAM14icWRru4I6g9s9xdhg9sCY2l3ck="

/-- The spec's fixed test-vector public key. -/
def testPublicKey : String :=
  "Y3AdHf4MAZi3xgCFxiDfyPBNbBQKuTqTCoDI/XHrnQg="

/-- The 32 bytes `testPrivateKey` decodes to. -/
def testPrivateKeyBytes : List Nat :=
  [156, 251, 30, 255, 140, 219, 64, 108, 78, 168, 3, 53, 226, 39, 22, 70,
   187, 184, 35, 168, 61, 179, 220, 93, 134, 15, 108, 9, 141, 165, 221, 201]

/-- `testPublicKey` with its `/` replaced by the base64url character `_`:
not standard base64, yet accepted by Node's lenient decoder. -/
def urlSafePublicKey : String :=
  "Y3AdHf4MAZi3xgCFxiDfyPBNbBQKuTqTCoDI_XHrnQg="

/-- `testPublicKey` without its `=` padding: 43 characters decoding to
32 bytes. -/
def unpaddedPublicKey : String :=
  "Y3AdHf4MAZi3xgCFxiDfyPBNbBQKuTqTCoDI/XHrnQg"

/-- A string that is not valid base64. -/
def nonBase64Input : String := "!!!"

/-- A 4-character base64 string decoding to 3 bytes. -/
def fourChars : String := "AAAA"

/-- The string the repository's test suite feeds to `validatePublicKey`. -/
def invalidWord : String := "invalid"

/-- 32 zero bytes, one possible draw of `randomBytes(32)`. -/
def zeroBytes32 : List Nat := List.replicate 32 0

/-- 16 zero bytes. -/
def zeroBytes16 : List Nat := List.replicate 16 0

/-- The standard base64 encoding of 16 zero bytes. -/
def sixteenZeroKey : String := "AAAAAAAAAAAAAAAAAAAAAA=="

/-! ## Claim C1 -/

/-- C1 as stated is false: `validatePublicKey` is not equivalent to "valid
standard base64 decoding to 32 bytes" — `urlSafePublicKey` uses the
non-standard character `_`, so it is not valid standard base64, yet
`validatePublicKey` accepts it. -/
theorem c1_original_counterexample :
    ¬ (validatePublicKey urlSafePublicKey = true ↔
        ∃ l, specStdDecode urlSafePublicKey.data = some l ∧ l.length = 32) := by
  intro hiff
  obtain ⟨l, hl, _⟩ := hiff.mp (by rfl)
  rw [show specStdDecode urlSafePublicKey.data = none from by rfl] at hl
  exact Option.noConfusion hl

/-- C1 (amended): every valid standard base64 string decoding to exactly
32 bytes is accepted by `validatePublicKey`; conversely every accepted
string has exactly 44 characters and decodes, under Node's lenient base64
decoder, to exactly 32 bytes (but need not be valid standard base64). -/
theorem c1_validatePublicKey_amended :
    (∀ (s : String) (l : List Nat), specStdDecode s.data = some l →
      l.length = 32 → validatePublicKey s = true) ∧
    (∀ s : String, validatePublicKey s = true →
      s.length = 44 ∧ (nodeBase64Decode s).length = 32) := by
  constructor
  · intro s l h h32
    obtain ⟨hdec, hm, hlo, hhi⟩ := specStd_spec _ _ h
    have hlen : s.data.length = 44 := by omega
    unfold validatePublicKey
    rw [if_neg (by show ¬s.data.length ≠ 44; omega)]
    show ((nodeBase64Decode s).length == 32) = true
    rw [show nodeBase64Decode s = l from hdec, h32]
    rfl
  · intro s hv
    unfold validatePublicKey at hv
    split at hv
    · exact absurd hv (by simp)
    · rename_i hlen
      refine ⟨by omega, ?_⟩
      exact beq_iff_eq.mp hv

/-- Witness for C1 at the test vector: a valid standard 44-character base64
encoding of 32 bytes is accepted. -/
theorem c1_validatePublicKey_witness : validatePublicKey testPublicKey = true :=
  c1_validatePublicKey_amended.1 testPublicKey
    (nodeBase64Decode testPublicKey) (by rfl) (by rfl)

/-! ## Claim C2 -/

/-- C2 as stated is false: on the non-base64 input `"!!!"` the code does not
fail with an `InvalidEncoding`-class error distinct from the
`InvalidKeyLength` error — the only error it can throw is the key-length
error itself. -/
theorem c2_original_counterexample :
    specStdDecode nonBase64Input.data = none ∧
    ¬ ∃ e, derivePublicKey nonBase64Input = Except.error e ∧ e ≠ keyLengthError := by
  refine ⟨rfl, ?_⟩
  rintro ⟨e, he, hne⟩
  rw [show derivePublicKey nonBase64Input = Except.error keyLengthError from rfl] at he
  injection he with he
  exact hne he.symm

/-- C2 (amended): `derivePublicKey` has a single error path; every failure,
also on non-base64 input, carries the `InvalidKeyLength`-class message
`'Private key must be 32 bytes long'`. The code defines no separate
`InvalidEncoding` error, because Node's base64 decoding never fails. -/
theorem c2_derivePublicKey_single_error :
    ∀ (s e : String), derivePublicKey s = Except.error e → e = keyLengthError := by
  intro s e h
  have h' : (if (nodeBase64Decode s).length ≠ 32 then (Except.error keyLengthError : Except String String)
      else Except.ok (bytesToBase64 (x25519getPublicKey (nodeBase64Decode s)))) = Except.error e := h
  split at h'
  · injection h' with h'
    exact h'.symm
  · exact Except.noConfusion h'

/-- Witness for C2 at the non-base64 input `"!!!"`. -/
theorem c2_derivePublicKey_single_error_witness : keyLengthError = keyLengthError :=
  c2_derivePublicKey_single_error nonBase64Input keyLengthError (by rfl)

/-! ## Claim C3 -/

/-- C3: for every valid base64 string whose decoded byte length is not 32,
`derivePublicKey` fails with the key-length error and returns no public
key. -/
theorem c3_derivePublicKey_wrong_length :
    ∀ (s : String) (l : List Nat), specStdDecode s.data = some l →
      l.length ≠ 32 → derivePublicKey s = Except.error keyLengthError := by
  intro s l h hne
  have hdec : nodeBase64Decode s = l := (specStd_spec _ _ h).1
  unfold derivePublicKey
  rw [if_pos (by rw [hdec]; exact hne)]

/-- Witness for C3 at a base64 string decoding to 16 bytes. -/
theorem c3_derivePublicKey_wrong_length_witness :
    derivePublicKey sixteenZeroKey = Except.error keyLengthError :=
  c3_derivePublicKey_wrong_length sixteenZeroKey zeroBytes16 (by rfl) (by decide)

/-! ## Claim C5 -/

/-- C5: `derivePublicKey` is deterministic and pure — in this embedding it is
a function of the input string alone (no world or randomness parameter), so
on any base64 string encoding a 32-byte private key it succeeds and two
invocations return the same public key. -/
theorem c5_derivePublicKey_deterministic :
    ∀ (s : String) (l : List Nat), specStdDecode s.data = some l →
      l.length = 32 →
      ∃ pk, derivePublicKey s = Except.ok pk ∧ derivePublicKey s = Except.ok pk := by
  intro s l h h32
  have hdec : nodeBase64Decode s = l := (specStd_spec _ _ h).1
  refine ⟨bytesToBase64 (x25519getPublicKey l), ?_, ?_⟩ <;>
  · unfold derivePublicKey
    rw [if_neg (by rw [hdec, h32]; omega), hdec]

/-- Witness for C5 at the test-vector private key. -/
theorem c5_derivePublicKey_deterministic_witness :
    ∃ pk, derivePublicKey testPrivateKey = Except.ok pk ∧
      derivePublicKey testPrivateKey = Except.ok pk :=
  c5_derivePublicKey_deterministic testPrivateKey testPrivateKeyBytes
    (by rfl) (by decide)

/-! ## Claim C6 -/

set_option maxRecDepth 100000 in
/-- C6: the fixed X25519 test vector — deriving from the literal private key
of the spec returns exactly the literal public key. -/
theorem c6_test_vector :
    derivePublicKey testPrivateKey = Except.ok testPublicKey := by rfl

/-! ## Claim C4 -/

/-- C4: for every 32-byte random draw, `generateWireguardKeyPair` succeeds
and the returned pair is round-trip consistent: deriving from the returned
private key yields exactly the returned public key. -/
theorem c4_keypair_roundtrip :
    ∀ bytes : List Nat, bytes.length = 32 → (∀ b ∈ bytes, b < 256) →
      ∃ kp : WireGuardKeyPair, generateWireguardKeyPair bytes = Except.ok kp ∧
        derivePublicKey kp.privateKey = Except.ok kp.publicKey := by
  intro bytes h32 hb
  have hdec : nodeBase64Decode (generatePrivateKey bytes) = bytes :=
    nodeBase64Decode_bytesToBase64 bytes hb
  have hderive : derivePublicKey (generatePrivateKey bytes) =
      Except.ok (bytesToBase64 (x25519getPublicKey bytes)) := by
    unfold derivePublicKey
    rw [if_neg (by rw [hdec, h32]; omega), hdec]
  exact ⟨⟨generatePrivateKey bytes, bytesToBase64 (x25519getPublicKey bytes)⟩,
    by unfold generateWireguardKeyPair; dsimp only; rw [hderive]; rfl, hderive⟩

/-- Witness for C4 at the all-zero 32-byte draw. -/
theorem c4_keypair_roundtrip_witness :
    ∃ kp : WireGuardKeyPair, generateWireguardKeyPair zeroBytes32 = Except.ok kp ∧
      derivePublicKey kp.privateKey = Except.ok kp.publicKey :=
  c4_keypair_roundtrip zeroBytes32 (by decide) (by decide)

/-! ## Claim C7 -/

/-- C7: for every 32-byte draw, `generatePrivateKey` returns standard base64
with padding: exactly 44 characters, the first 43 from the standard
alphabet, ending in a single trailing `=`, and the string decodes back (as
strict standard base64) to exactly the drawn 32 bytes. -/
theorem c7_generatePrivateKey_encoding :
    ∀ bytes : List Nat, bytes.length = 32 → (∀ b ∈ bytes, b < 256) →
      (generatePrivateKey bytes).length = 44 ∧
      (∃ pre, (generatePrivateKey bytes).data = pre ++ ['='] ∧
        pre.length = 43 ∧ ∀ c ∈ pre, ∃ v, stdSextet c = some v) ∧
      specStdDecode (generatePrivateKey bytes).data = some bytes := by
  intro bytes h32 hb
  have hlen : (generatePrivateKey bytes).length = 44 := by
    show (bytesToBase64 bytes).length = 44
    rw [bytesToBase64_length, h32]
  obtain ⟨pre, hpre, hall⟩ := base64encode_pad bytes hb (by omega)
  refine ⟨hlen, ⟨pre, hpre, ?_, hall⟩, specStd_roundtrip bytes hb⟩
  have : (base64encode bytes).length = 44 := by
    rw [base64encode_length, h32]
  rw [hpre] at this
  simpa using this

/-- Witness for C7 at the all-zero 32-byte draw. -/
theorem c7_generatePrivateKey_encoding_witness :
    (generatePrivateKey zeroBytes32).length = 44 ∧
    (∃ pre, (generatePrivateKey zeroBytes32).data = pre ++ ['='] ∧
      pre.length = 43 ∧ ∀ c ∈ pre, ∃ v, stdSextet c = some v) ∧
    specStdDecode (generatePrivateKey zeroBytes32).data = some zeroBytes32 :=
  c7_generatePrivateKey_encoding zeroBytes32 (by decide) (by decide)

/-! ## Claim C8 -/

/-- C8: `validatePublicKey` is total — on every string it returns one of the
two booleans (the embedding of the `try`/`catch` body never reaches a throw,
since Node's base64 decoding of a string is total), and every input whose
decode does not give 32 bytes folds into `false`. -/
theorem c8_validatePublicKey_total :
    (∀ s : String, validatePublicKey s = true ∨ validatePublicKey s = false) ∧
    (∀ s : String, (nodeBase64Decode s).length ≠ 32 → validatePublicKey s = false) := by
  constructor
  · intro s
    rcases Bool.eq_false_or_eq_true (validatePublicKey s) with h | h
    · exact Or.inl h
    · exact Or.inr h
  · intro s h
    unfold validatePublicKey
    split
    · rfl
    · exact beq_eq_false_iff_ne.mpr h

/-- Witness for C8 at the test suite input that is not a key. -/
theorem c8_validatePublicKey_total_witness :
    validatePublicKey invalidWord = false :=
  c8_validatePublicKey_total.2 invalidWord (by decide)

/-! ## Claim C9 -/

/-- C9: every string whose character length is not exactly 44 is rejected by
`validatePublicKey`, regardless of what it would decode to. -/
theorem c9_validatePublicKey_length_gate :
    ∀ s : String, s.length ≠ 44 → validatePublicKey s = false := by
  intro s h
  unfold validatePublicKey
  rw [if_pos h]

/-- Witness for C9 at the unpadded 43-character encoding of the test-vector
public key: it decodes to 32 bytes, yet is rejected for its length. -/
theorem c9_validatePublicKey_length_gate_witness :
    (nodeBase64Decode unpaddedPublicKey).length = 32 ∧
    validatePublicKey unpaddedPublicKey = false :=
  ⟨by rfl, c9_validatePublicKey_length_gate unpaddedPublicKey (by decide)⟩

/-! ## Claim C10 -/

/-- C10: whenever `derivePublicKey` succeeds, the public key it returns
passes `validatePublicKey`. -/
theorem c10_derive_validate_consistent :
    ∀ s pk : String, derivePublicKey s = Except.ok pk →
      validatePublicKey pk = true := by
  intro s pk h
  have h' : (if (nodeBase64Decode s).length ≠ 32 then (Except.error keyLengthError : Except String String)
      else Except.ok (bytesToBase64 (x25519getPublicKey (nodeBase64Decode s)))) = Except.ok pk := h
  split at h'
  · exact Except.noConfusion h'
  · injection h' with h'
    rw [← h']
    exact validatePublicKey_bytesToBase64 _ (x25519getPublicKey_length _)
      (x25519getPublicKey_lt _)

set_option maxRecDepth 100000 in
/-- Witness for C10 at the test vector. -/
theorem c10_derive_validate_consistent_witness :
    validatePublicKey testPublicKey = true :=
  c10_derive_validate_consistent testPrivateKey testPublicKey (by rfl)

end WireguardKeygen
